import Mathlib

/-!
Verification of the type-directed SCALE value encoder in
`src/cmd/extrinsics/transcode/encode.rs`.

The encoder walks a type registry (`scale_info::RegistryReadOnly`) and a
dynamic value tree (`scon::Value`) together, appending bytes to an output
sink.  We embed the registry, the value tree, the outcome of an encode call
(distinguishing returned `anyhow` errors from Rust panics raised by
`unimplemented!` / `todo!`), and the recursive encoding functions.

Recursion through the registry is unbounded in the source (a cyclic type
graph overflows the call stack); the embedding threads an explicit `fuel`
counter that is decremented exactly at `encode_value` (the registry
indirection used for `Field` encoding); exhaustion is modelled as a panic,
matching stack exhaustion aborting the process.
-/

/-- Models `scale_info::TypeDefPrimitive`. -/
inductive TypeDefPrimitive where
  | bool
  | char
  | str
  | u8
  | u16
  | u32
  | u64
  | u128
  | i8
  | i16
  | i32
  | i64
  | i128
deriving DecidableEq, Repr

/-- Models `scale_info::Field<CompactForm>`: an optional name and the id of
the field's type (`field.ty().id()`). -/
structure SField where
  name : Option String
  ty : Nat
deriving DecidableEq, Repr

/-- Models `scale_info::Variant<CompactForm>`: a variant case with a name
and its ordered fields. -/
structure Variant where
  name : String
  fields : List SField
deriving DecidableEq, Repr

/-- Models `scale_info::TypeDef<CompactForm>`.  The `tuple` constructor
stands for the `TypeDef::Tuple` kind, which falls into the
`def => unimplemented!` catch-all of `TypeDef::encode_value_to`. -/
inductive TypeDef where
  | composite (fields : List SField)
  | variant (variants : List Variant)
  | array (len : Nat) (typeParam : Nat)
  | sequence (typeParam : Nat)
  | primitive (p : TypeDefPrimitive)
  | tuple (fields : List Nat)
deriving DecidableEq, Repr

/-- Models `scale_info::Type<CompactForm>` (named `SType` since `Type` is a
Lean keyword): a declared path plus a type definition. -/
structure SType where
  path : List String
  typeDef : TypeDef
deriving DecidableEq, Repr

/-- Models `scale_info::RegistryReadOnly`: read-only map from type ids to
types. -/
structure Registry where
  types : List (Nat × SType)
deriving DecidableEq, Repr

/-- Models `RegistryReadOnly::resolve`: look the id up, `None` when absent. -/
def Registry.resolve (reg : Registry) (id : Nat) : Option SType :=
  (reg.types.find? (fun e => e.fst == id)).map Prod.snd

/-- Modelled from the spec: the dynamic value tree (`scon::Value`, whose
source is not part of the encoder file).  §3: `Bool`, `UInt`
(arbitrary-precision unsigned literal), `String`, `Bytes` (raw byte
sequence), `Seq`, `Tuple` (ordered values, optional identifier naming a
variant case), `Map` (ordered named entries, optional identifier). -/
inductive Value where
  | bool (b : Bool)
  | uInt (n : Nat)
  | string (s : String)
  | bytes (bs : List Nat)
  | seq (vs : List Value)
  | tuple (ident : Option String) (vs : List Value)
  | map (ident : Option String) (entries : List (String × Value))

/-- Outcome of an encode call: success with the final buffer contents, a
returned `anyhow` error, or a Rust panic (`unimplemented!` / `todo!` /
stack exhaustion). -/
inductive Outcome where
  | ok (out : List Nat)
  | err (msg : String)
  | panicked (msg : String)
deriving DecidableEq, Repr

/-- True exactly for the `err` outcome (a returned error, not a panic). -/
def Outcome.isErr : Outcome → Bool
  | .err _ => true
  | _ => false

/-- Modelled from the spec: classification of a composite's field shape
(`CompositeTypeFields`, defined in the transcode module outside the encoder
file).  §4.3/§3: no fields is a unit, all-named fields behave like a
struct, all-unnamed fields behave positionally; a mix is rejected. -/
inductive CompositeTypeFields where
  | structNamedFields (fields : List SField)
  | tupleStructUnnamedFields (fields : List SField)
  | noFields
deriving DecidableEq, Repr

/-- Modelled from the spec: `CompositeTypeFields::from_type_def` classifies
the field list as described in §3 and §4.3, failing on mixed
named/unnamed fields. -/
def CompositeTypeFields.fromTypeDef (fields : List SField) :
    Except String CompositeTypeFields :=
  if fields.isEmpty then .ok .noFields
  else if fields.all (fun f => f.name.isSome) then .ok (.structNamedFields fields)
  else if fields.all (fun f => f.name.isNone) then .ok (.tupleStructUnnamedFields fields)
  else .error "Struct fields should either be all named or all unnamed"

/-- Models `Itertools::find_position`: the first element satisfying the
predicate together with its zero-based position. -/
def findPosition {α : Type} (p : α → Bool) : List α → Option (Nat × α)
  | [] => none
  | x :: xs =>
    if p x then some (0, x)
    else (findPosition p xs).map (fun ic => (ic.1 + 1, ic.2))

/-- Modelled from the spec: the fixed-width little-endian byte encoding of
the external `scale` codec (§1 treats it as a primitive codec library). -/
def toLEBytes (width n : Nat) : List Nat :=
  (List.range width).map (fun i => n / 256 ^ i % 256)

/-- Modelled from the spec: the SCALE `Compact<u32>` variable-length count
encoding used as a length prefix (§1, GLOSSARY). -/
def compactU32 (n : Nat) : List Nat :=
  if n < 64 then [n * 4]
  else if n < 16384 then toLEBytes 2 (n * 4 + 1)
  else if n < 1073741824 then toLEBytes 4 (n * 4 + 2)
  else 3 :: toLEBytes 4 n

/-- Modelled from the spec: `String::encode_to` of the `scale` codec —
compact byte-count prefix followed by the UTF-8 bytes. -/
def strEncode (s : String) : List Nat :=
  compactU32 (s.toUTF8.size % 2 ^ 32) ++ s.toUTF8.toList.map (fun b => b.toNat)

/-- Display of `TryFromIntError`, produced when a `UInt` literal does not
fit the target width. -/
def outOfRangeMsg : String := "out of range integral type conversion attempted"

/-- Models `str::replace(&['_', ','][..], "")`: strip every underscore and
comma grouping separator. -/
def stripSeparators (s : String) : String :=
  String.mk (s.toList.filter (fun c => !(c == '_' || c == ',')))

/-- Models `u64::from_str` / `u128::from_str` (with `max` the width's
maximum): optional leading `+`, decimal digits only, overflow rejected.
Error strings follow `ParseIntError`'s display. -/
def parseUnsigned (max : Nat) (s : String) : Except String Nat :=
  match s.toList with
  | [] => .error "cannot parse integer from empty string"
  | cs =>
    let ds := match cs with
      | '+' :: rest => rest
      | _ => cs
    if ds.isEmpty then .error "invalid digit found in string"
    else if ds.all Char.isDigit then
      let n := ds.foldl (fun acc c => acc * 10 + (c.toNat - 48)) 0
      if n ≤ max then .ok n else .error "number too large to fit in target type"
    else .error "invalid digit found in string"

/-- Models `TypeDefPrimitive::encode_value_to` (encode.rs lines 237-326).
The signed kinds hit the `_ => unimplemented!` catch-all and panic. -/
def encodePrimitive (p : TypeDefPrimitive) (v : Value) (out : List Nat) : Outcome :=
  match p with
  | .bool =>
    match v with
    | .bool b => .ok (out ++ [if b then 1 else 0])
    | _ => .err "Expected a bool value"
  | .char => .err "scale codec not implemented for char"
  | .str =>
    match v with
    | .string s => .ok (out ++ strEncode s)
    | _ => .err "Expected a String value"
  | .u8 =>
    match v with
    | .uInt n => if n < 2 ^ 8 then .ok (out ++ toLEBytes 1 n) else .err outOfRangeMsg
    | _ => .err "Expected a u8 value"
  | .u16 =>
    match v with
    | .uInt n => if n < 2 ^ 16 then .ok (out ++ toLEBytes 2 n) else .err outOfRangeMsg
    | _ => .err "Expected a u16 value"
  | .u32 =>
    match v with
    | .uInt n => if n < 2 ^ 32 then .ok (out ++ toLEBytes 4 n) else .err outOfRangeMsg
    | _ => .err "Expected a u16 value"
  | .u64 =>
    match v with
    | .uInt n => if n < 2 ^ 64 then .ok (out ++ toLEBytes 8 n) else .err outOfRangeMsg
    | .string s =>
      match parseUnsigned (2 ^ 64 - 1) (stripSeparators s) with
      | .ok u => .ok (out ++ toLEBytes 8 u)
      | .error m => .err m
    | _ => .err "Expected a Number or a String value"
  | .u128 =>
    match v with
    | .uInt n => if n < 2 ^ 128 then .ok (out ++ toLEBytes 16 n) else .err outOfRangeMsg
    | .string s =>
      match parseUnsigned (2 ^ 128 - 1) (stripSeparators s) with
      | .ok u => .ok (out ++ toLEBytes 16 u)
      | .error m => .err m
    | _ => .err "Expected a Number or a String value"
  | .i8 | .i16 | .i32 | .i64 | .i128 =>
    .panicked "TypeDefPrimitive::encode_value"

/-- Every value has positive size (used for the termination measure). -/
theorem Value.sizeOf_pos (v : Value) : 0 < sizeOf v := by
  cases v <;> simp

/-- Every optional identifier has positive size. -/
theorem Option.sizeOf_pos_str (o : Option String) : 0 < sizeOf o := by
  cases o <;> simp

/-- Projecting the values out of map entries does not increase the size. -/
theorem sizeOf_map_snd_le (l : List (String × Value)) :
    sizeOf (l.map Prod.snd) ≤ sizeOf l := by
  induction l with
  | nil => simp
  | cons p t ih =>
    cases p with
    | mk k v => simp only [List.map_cons, List.cons.sizeOf_spec, Prod.mk.sizeOf_spec]; omega


mutual

/-- Models `encode_value` (encode.rs lines 37-48): resolve the type id,
dispatch on its definition, and wrap a returned error with the type's
path.  `fuel` bounds the call-stack depth; its exhaustion models the stack
overflow the unbounded source recursion would hit. -/
def encodeValue (fuel : Nat) (reg : Registry) (id : Nat) (v : Value)
    (out : List Nat) : Outcome :=
  match fuel with
  | 0 => .panicked "stack overflow"
  | fuel + 1 =>
    match reg.resolve id with
    | none => .err ("Failed to resolve type with id '" ++ toString id ++ "'")
    | some ty =>
      match encodeTypeDef fuel reg ty.typeDef v out with
      | .ok out' => .ok out'
      | .err m =>
        .err ("Error encoding value for " ++ toString ty.path ++ ": " ++ m)
      | .panicked m => .panicked m
termination_by (fuel, 0, 0)
decreasing_by all_goals
  simp_wf
  first
  | exact Prod.Lex.left _ _ (Nat.lt_succ_self _)
  | (apply Prod.Lex.right
     first
     | (apply Prod.Lex.right; omega)
     | (apply Prod.Lex.left
        first
        | omega
        | exact Value.sizeOf_pos _
        | (have h1 := sizeOf_map_snd_le entries
           have h2 := Option.sizeOf_pos_str _ident
           omega)
        | (have h2 := Option.sizeOf_pos_str _ident
           omega)))

/-- Models `TypeDef::encode_value_to` (encode.rs lines 50-66): dispatch on
the descriptor kind; kinds outside the five implemented rules hit
`unimplemented!` and panic. -/
def encodeTypeDef (fuel : Nat) (reg : Registry) (td : TypeDef) (v : Value)
    (out : List Nat) : Outcome :=
  match td with
  | .composite fields => encodeComposite fuel reg fields v out
  | .variant variants => encodeVariantDef fuel reg variants v out
  | .array _len typeParam => encodeSeq fuel reg typeParam v false out
  | .sequence typeParam => encodeSeq fuel reg typeParam v true out
  | .primitive p => encodePrimitive p v out
  | .tuple _ => .panicked "TypeDef::encode_value"
termination_by (fuel, sizeOf v, 3)
decreasing_by all_goals
  simp_wf
  first
  | exact Prod.Lex.left _ _ (Nat.lt_succ_self _)
  | (apply Prod.Lex.right
     first
     | (apply Prod.Lex.right; omega)
     | (apply Prod.Lex.left
        first
        | omega
        | exact Value.sizeOf_pos _
        | (have h1 := sizeOf_map_snd_le entries
           have h2 := Option.sizeOf_pos_str _ident
           omega)
        | (have h2 := Option.sizeOf_pos_str _ident
           omega)))

/-- Models `TypeDefComposite::encode_value_to` (encode.rs lines 68-113):
classify the fields (`from_type_def`, whose error is propagated by `?`
before the value is inspected — here the identical classification check is
made at the head of every value branch, which is observationally the
same), then pair the fields positionally against a `Map`'s entry values or
a `Tuple`'s values; any other value is accepted exactly when the composite
has a single field, which the bare value is encoded against. -/
def encodeComposite (fuel : Nat) (reg : Registry) (fields : List SField)
    (v : Value) (out : List Nat) : Outcome :=
  match v with
  | .map _ident entries =>
    match CompositeTypeFields.fromTypeDef fields with
    | .error m => .err m
    | .ok _ => encodeFields fuel reg fields (entries.map Prod.snd) out
  | .tuple _ident vals =>
    match CompositeTypeFields.fromTypeDef fields with
    | .error m => .err m
    | .ok (.tupleStructUnnamedFields fs) => encodeFields fuel reg fs vals out
    | .ok .noFields => .ok out
    | .ok (.structNamedFields _) => .err "Type is a struct requiring named fields"
  | _ =>
    match CompositeTypeFields.fromTypeDef fields with
    | .error m => .err m
    | .ok _ =>
      match fields with
      | [f] => encodeValue fuel reg f.ty v out
      | _ =>
        .err "Expected a Map or a Tuple or a single Value for a composite data type"
termination_by (fuel, sizeOf v, 2)
decreasing_by all_goals
  simp_wf
  first
  | exact Prod.Lex.left _ _ (Nat.lt_succ_self _)
  | (apply Prod.Lex.right
     first
     | (apply Prod.Lex.right; omega)
     | (apply Prod.Lex.left
        first
        | omega
        | exact Value.sizeOf_pos _
        | (have h1 := sizeOf_map_snd_le entries
           have h2 := Option.sizeOf_pos_str _ident
           omega)
        | (have h2 := Option.sizeOf_pos_str _ident
           omega)))

/-- Models `TypeDefVariant::encode_value_to` (encode.rs lines 115-144):
extract the identifier, find the first case of that name in declaration
order, check the index fits one byte, push it, then encode the case. -/
def encodeVariantDef (fuel : Nat) (reg : Registry) (variants : List Variant)
    (v : Value) (out : List Nat) : Outcome :=
  match
    (match v with
     | .map ident _ =>
       match ident with
       | some n => Except.ok n
       | none => Except.error "Missing enum variant identifier for map"
     | .tuple ident _ =>
       match ident with
       | some n => Except.ok n
       | none => Except.error "Missing enum variant identifier for tuple"
     | _ => Except.error "Invalid enum variant value") with
  | .error m => .err m
  | .ok variantIdent =>
    match findPosition (fun c => c.name == variantIdent) variants with
    | none => .err ("No variant '" ++ variantIdent ++ "' found")
    | some (index, c) =>
      if index ≤ 255 then encodeVariantCase fuel reg c.fields v (out ++ [index])
      else .err "Variant index > 255"
termination_by (fuel, sizeOf v, 2)
decreasing_by all_goals
  simp_wf
  first
  | exact Prod.Lex.left _ _ (Nat.lt_succ_self _)
  | (apply Prod.Lex.right
     first
     | (apply Prod.Lex.right; omega)
     | (apply Prod.Lex.left
        first
        | omega
        | exact Value.sizeOf_pos _
        | (have h1 := sizeOf_map_snd_le entries
           have h2 := Option.sizeOf_pos_str _ident
           omega)
        | (have h2 := Option.sizeOf_pos_str _ident
           omega)))

/-- Models `Variant::encode_value_to` (encode.rs lines 146-171): a `Tuple`
payload is paired positionally against the case's fields; a `Map` payload
hits `todo!()` and panics. -/
def encodeVariantCase (fuel : Nat) (reg : Registry) (fields : List SField)
    (v : Value) (out : List Nat) : Outcome :=
  match v with
  | .map _ _ => .panicked "not yet implemented"
  | .tuple _ident vals => encodeFields fuel reg fields vals out
  | _ => .err "Invalid enum variant value"
termination_by (fuel, sizeOf v, 1)
decreasing_by all_goals
  simp_wf
  first
  | exact Prod.Lex.left _ _ (Nat.lt_succ_self _)
  | (apply Prod.Lex.right
     first
     | (apply Prod.Lex.right; omega)
     | (apply Prod.Lex.left
        first
        | omega
        | exact Value.sizeOf_pos _
        | (have h1 := sizeOf_map_snd_le entries
           have h2 := Option.sizeOf_pos_str _ident
           omega)
        | (have h2 := Option.sizeOf_pos_str _ident
           omega)))

/-- Models the `fields.iter().zip(values)` loops of composite and variant
encoding: pair fields and values positionally, stopping at the shorter
side, encoding each pair via `Field::encode_value_to` = `encode_value`
(encode.rs lines 173-182). -/
def encodeFields (fuel : Nat) (reg : Registry) (fields : List SField)
    (vals : List Value) (out : List Nat) : Outcome :=
  match fields, vals with
  | f :: fs, v :: vs =>
    match encodeValue fuel reg f.ty v out with
    | .ok out' => encodeFields fuel reg fs vs out'
    | e => e
  | _, _ => .ok out
termination_by (fuel, 1 + sizeOf vals, 0)
decreasing_by all_goals
  simp_wf
  first
  | exact Prod.Lex.left _ _ (Nat.lt_succ_self _)
  | (apply Prod.Lex.right
     first
     | (apply Prod.Lex.right; omega)
     | (apply Prod.Lex.left
        first
        | omega
        | exact Value.sizeOf_pos _
        | (have h1 := sizeOf_map_snd_le entries
           have h2 := Option.sizeOf_pos_str _ident
           omega)
        | (have h2 := Option.sizeOf_pos_str _ident
           omega)))

/-- Models `encode_seq` (encode.rs lines 206-235): resolve the element
type; a `Seq` emits the compact count (when `encodeLen`) then each element
against the element type; `Bytes` emits the compact count then the raw
bytes with no per-element dispatch. -/
def encodeSeq (fuel : Nat) (reg : Registry) (tid : Nat) (v : Value)
    (encodeLen : Bool) (out : List Nat) : Outcome :=
  match reg.resolve tid with
  | none => .err ("Failed to find type with id '" ++ toString tid ++ "'")
  | some ty =>
    match v with
    | .seq vs =>
      encodeSeqElems fuel reg ty.typeDef vs
        (if encodeLen then out ++ compactU32 (vs.length % 2 ^ 32) else out)
    | .bytes bs =>
      .ok ((if encodeLen then out ++ compactU32 (bs.length % 2 ^ 32) else out) ++ bs)
    | _ => .err "cannot be encoded as an array"
termination_by (fuel, sizeOf v, 2)
decreasing_by all_goals
  simp_wf
  first
  | exact Prod.Lex.left _ _ (Nat.lt_succ_self _)
  | (apply Prod.Lex.right
     first
     | (apply Prod.Lex.right; omega)
     | (apply Prod.Lex.left
        first
        | omega
        | exact Value.sizeOf_pos _
        | (have h1 := sizeOf_map_snd_le entries
           have h2 := Option.sizeOf_pos_str _ident
           omega)
        | (have h2 := Option.sizeOf_pos_str _ident
           omega)))

/-- The element loop of `encode_seq`: encode each element in order against
the resolved element type definition. -/
def encodeSeqElems (fuel : Nat) (reg : Registry) (td : TypeDef)
    (vs : List Value) (out : List Nat) : Outcome :=
  match vs with
  | [] => .ok out
  | v :: rest =>
    match encodeTypeDef fuel reg td v out with
    | .ok out' => encodeSeqElems fuel reg td rest out'
    | e => e
termination_by (fuel, 1 + sizeOf vs, 0)
decreasing_by all_goals
  simp_wf
  first
  | exact Prod.Lex.left _ _ (Nat.lt_succ_self _)
  | (apply Prod.Lex.right
     first
     | (apply Prod.Lex.right; omega)
     | (apply Prod.Lex.left
        first
        | omega
        | exact Value.sizeOf_pos _
        | (have h1 := sizeOf_map_snd_le entries
           have h2 := Option.sizeOf_pos_str _ident
           omega)
        | (have h2 := Option.sizeOf_pos_str _ident
           omega)))

end

/-- True for every value kind other than `Map` and `Tuple` (the "bare
value" case of composite encoding). -/
def Value.isBare : Value → Bool
  | .map _ _ => false
  | .tuple _ _ => false
  | _ => true

/-- A registry with a single `bool` type under id 1 (used by witnesses). -/
def regBool : Registry := ⟨[(1, ⟨[], TypeDef.primitive TypeDefPrimitive.bool⟩)]⟩

/-- A registry with a single `u8` type under id 1 (used by witnesses). -/
def regU8 : Registry := ⟨[(1, ⟨[], TypeDef.primitive TypeDefPrimitive.u8⟩)]⟩

/-- A registry with a single `char` type at path `Foo` under id 1 (used by
witnesses). -/
def regChar : Registry := ⟨[(1, ⟨["Foo"], TypeDef.primitive TypeDefPrimitive.char⟩)]⟩

/-- The three-case variant `[A, B, C]`, each case fieldless. -/
def casesABC : List Variant := [⟨"A", []⟩, ⟨"B", []⟩, ⟨"C", []⟩]

/-- C4: encoding a `UInt` against `U8`/`U16`/`U32` succeeds exactly when
the literal fits the target width, emitting the fixed-width little-endian
bytes, and fails with the conversion error otherwise; in particular
encoding 256 against `U8` fails and 255 succeeds emitting byte 0xFF. -/
theorem C4_fixed_width_unsigned (n : Nat) (out : List Nat) :
    (encodePrimitive TypeDefPrimitive.u8 (Value.uInt n) out =
      if n < 2 ^ 8 then Outcome.ok (out ++ toLEBytes 1 n) else Outcome.err outOfRangeMsg)
    ∧ (encodePrimitive TypeDefPrimitive.u16 (Value.uInt n) out =
      if n < 2 ^ 16 then Outcome.ok (out ++ toLEBytes 2 n) else Outcome.err outOfRangeMsg)
    ∧ (encodePrimitive TypeDefPrimitive.u32 (Value.uInt n) out =
      if n < 2 ^ 32 then Outcome.ok (out ++ toLEBytes 4 n) else Outcome.err outOfRangeMsg)
    ∧ encodePrimitive TypeDefPrimitive.u8 (Value.uInt 256) [] = Outcome.err outOfRangeMsg
    ∧ encodePrimitive TypeDefPrimitive.u8 (Value.uInt 255) [] = Outcome.ok [255] :=
  ⟨rfl, rfl, rfl, by decide, by decide⟩

/-- C5: `U64`/`U128` accept a fit-checked `UInt` or a `String`; in the
string case `_` and `,` are stripped before parsing as an unsigned decimal
literal, a parse failure being a hard error; encoding the string
`"1_000_000"` against `U64` emits the 8-byte little-endian encoding of
1000000. -/
theorem C5_u64_u128_string_path (n : Nat) (s : String) (out : List Nat) :
    (encodePrimitive TypeDefPrimitive.u64 (Value.uInt n) out =
      if n < 2 ^ 64 then Outcome.ok (out ++ toLEBytes 8 n) else Outcome.err outOfRangeMsg)
    ∧ (encodePrimitive TypeDefPrimitive.u64 (Value.string s) out =
      match parseUnsigned (2 ^ 64 - 1) (stripSeparators s) with
      | .ok u => Outcome.ok (out ++ toLEBytes 8 u)
      | .error m => Outcome.err m)
    ∧ (encodePrimitive TypeDefPrimitive.u128 (Value.uInt n) out =
      if n < 2 ^ 128 then Outcome.ok (out ++ toLEBytes 16 n) else Outcome.err outOfRangeMsg)
    ∧ (encodePrimitive TypeDefPrimitive.u128 (Value.string s) out =
      match parseUnsigned (2 ^ 128 - 1) (stripSeparators s) with
      | .ok u => Outcome.ok (out ++ toLEBytes 16 u)
      | .error m => Outcome.err m)
    ∧ stripSeparators "1_000_000" = "1000000"
    ∧ encodePrimitive TypeDefPrimitive.u64 (Value.string "1_000_000") []
        = Outcome.ok (toLEBytes 8 1000000)
    ∧ toLEBytes 8 1000000 = [64, 66, 15, 0, 0, 0, 0, 0] :=
  ⟨rfl, rfl, rfl, rfl, by decide, by decide, by decide⟩

/-- C6 counterexample: the reserved signed primitive kinds do NOT return a
"not implemented" error to the caller — `unimplemented!` panics instead.
At `I8` with `UInt 0`, the outcome is a panic and is not an `err`. -/
theorem C6_counterexample :
    encodePrimitive TypeDefPrimitive.i8 (Value.uInt 0) []
      = Outcome.panicked "TypeDefPrimitive::encode_value"
    ∧ Outcome.isErr (encodePrimitive TypeDefPrimitive.i8 (Value.uInt 0) []) = false := by
  decide

/-- C6 (amended): every unimplemented case — a descriptor kind outside the
five encoding rules (`TypeDef::Tuple`), a reserved signed primitive kind,
and a `Map`-shaped payload for a variant case — fails fast by panicking
with an explicit "not implemented" panic (`unimplemented!` / `todo!`)
rather than silently producing wrong bytes or returning an error. -/
theorem C6_unimplemented_cases_panic (fuel : Nat) (reg : Registry) (ts : List Nat)
    (v : Value) (out : List Nat) (fields : List SField) (ident : Option String)
    (entries : List (String × Value)) :
    encodeTypeDef fuel reg (TypeDef.tuple ts) v out
      = Outcome.panicked "TypeDef::encode_value"
    ∧ encodePrimitive TypeDefPrimitive.i8 v out
      = Outcome.panicked "TypeDefPrimitive::encode_value"
    ∧ encodePrimitive TypeDefPrimitive.i16 v out
      = Outcome.panicked "TypeDefPrimitive::encode_value"
    ∧ encodePrimitive TypeDefPrimitive.i32 v out
      = Outcome.panicked "TypeDefPrimitive::encode_value"
    ∧ encodePrimitive TypeDefPrimitive.i64 v out
      = Outcome.panicked "TypeDefPrimitive::encode_value"
    ∧ encodePrimitive TypeDefPrimitive.i128 v out
      = Outcome.panicked "TypeDefPrimitive::encode_value"
    ∧ encodeVariantCase fuel reg fields (Value.map ident entries) out
      = Outcome.panicked "not yet implemented" := by
  refine ⟨?_, rfl, rfl, rfl, rfl, rfl, ?_⟩
  · simp [encodeTypeDef]
  · simp [encodeVariantCase]

/-- With no fields left, the zip loop succeeds immediately. -/
theorem encodeFields_nil_left (fuel : Nat) (reg : Registry) (vals : List Value)
    (out : List Nat) : encodeFields fuel reg [] vals out = Outcome.ok out := by
  cases vals <;> simp [encodeFields]

/-- With no values left, the zip loop succeeds immediately. -/
theorem encodeFields_nil_right (fuel : Nat) (reg : Registry) (fields : List SField)
    (out : List Nat) : encodeFields fuel reg fields [] out = Outcome.ok out := by
  cases fields <;> simp [encodeFields]

/-- The positional zip loop only ever looks at the paired prefix of the
two lists. -/
theorem encodeFields_take_min (fuel : Nat) (reg : Registry) :
    ∀ (fields : List SField) (vals : List Value) (out : List Nat),
    encodeFields fuel reg fields vals out
      = encodeFields fuel reg (fields.take (min fields.length vals.length))
          (vals.take (min fields.length vals.length)) out := by
  intro fields
  induction fields with
  | nil => intro vals out; simp [encodeFields_nil_left]
  | cons f fs ih =>
    intro vals out
    cases vals with
    | nil => simp [encodeFields_nil_right]
    | cons v vs =>
      simp only [List.length_cons, Nat.succ_min_succ, List.take_succ_cons]
      rw [encodeFields, encodeFields]
      cases encodeValue fuel reg f.ty v out with
      | ok out' => simp [ih vs out']
      | err m => simp
      | panicked m => simp

/-- C8: field/value pairing, at composite `Map`/`Tuple` payloads and at
variant-case `Tuple` payloads, is a positional zip that stops at the
shorter side: the excess declared fields or supplied values are silently
dropped, only the paired prefix is encoded, and an exhausted side yields
success rather than an arity error. -/
theorem C8_positional_zip_truncates (fuel : Nat) (reg : Registry)
    (fields : List SField) (vals : List Value) (out : List Nat)
    (ident : Option String) (entries : List (String × Value)) :
    (encodeFields fuel reg fields vals out
      = encodeFields fuel reg (fields.take (min fields.length vals.length))
          (vals.take (min fields.length vals.length)) out)
    ∧ encodeFields fuel reg fields [] out = Outcome.ok out
    ∧ encodeFields fuel reg [] vals out = Outcome.ok out
    ∧ (encodeVariantCase fuel reg fields (Value.tuple ident vals) out
      = encodeFields fuel reg fields vals out)
    ∧ (encodeComposite fuel reg fields (Value.map ident entries) out
      = match CompositeTypeFields.fromTypeDef fields with
        | .error m => Outcome.err m
        | .ok _ => encodeFields fuel reg fields (entries.map Prod.snd) out) := by
  refine ⟨encodeFields_take_min fuel reg fields vals out,
          encodeFields_nil_right fuel reg fields out,
          encodeFields_nil_left fuel reg vals out,
          by simp [encodeVariantCase],
          ?_⟩
  cases h : CompositeTypeFields.fromTypeDef fields <;> simp [encodeComposite, h]

/-- C2: encoding a `Seq` of n elements against a `Sequence` type emits the
compact encoding of the count n before the in-order element encodings,
while encoding the same values against a fixed-length `Array` type emits
only the element encodings, with no count prefix. -/
theorem C2_sequence_prefix_array_bare (fuel : Nat) (reg : Registry)
    (elemTy len : Nat) (vs : List Value) (out : List Nat)
    (h : vs.length < 2 ^ 32) :
    (encodeTypeDef fuel reg (TypeDef.sequence elemTy) (Value.seq vs) out
      = encodeTypeDef fuel reg (TypeDef.array len elemTy) (Value.seq vs)
          (out ++ compactU32 vs.length))
    ∧ ∀ ty, reg.resolve elemTy = some ty →
        (encodeTypeDef fuel reg (TypeDef.sequence elemTy) (Value.seq vs) out
          = encodeSeqElems fuel reg ty.typeDef vs (out ++ compactU32 vs.length))
        ∧ (encodeTypeDef fuel reg (TypeDef.array len elemTy) (Value.seq vs) out
          = encodeSeqElems fuel reg ty.typeDef vs out) := by
  have hm : vs.length % 4294967296 = vs.length := Nat.mod_eq_of_lt (by omega)
  constructor
  · cases hres : reg.resolve elemTy <;>
      simp [encodeTypeDef, encodeSeq, hres, hm]
  · intro ty hres
    constructor <;> simp [encodeTypeDef, encodeSeq, hres, hm]

/-- C2 witness: three booleans against a sequence type and against a
fixed-length-3 array type, at element type id 1 of `regBool`. -/
theorem C2_witness :
    encodeTypeDef 1 regBool (TypeDef.sequence 1)
        (Value.seq [Value.bool true, Value.bool false, Value.bool true]) []
      = encodeTypeDef 1 regBool (TypeDef.array 3 1)
          (Value.seq [Value.bool true, Value.bool false, Value.bool true])
          ([] ++ compactU32 3) :=
  (C2_sequence_prefix_array_bare 1 regBool 1 3
    [Value.bool true, Value.bool false, Value.bool true] [] (by decide)).1

/-- Encoding a list of in-range byte literals element-wise against the
`U8` primitive appends exactly those bytes. -/
theorem encodeSeqElems_u8 (fuel : Nat) (reg : Registry) :
    ∀ (bs : List Nat) (out : List Nat), (∀ b ∈ bs, b < 256) →
    encodeSeqElems fuel reg (TypeDef.primitive TypeDefPrimitive.u8)
        (bs.map Value.uInt) out = Outcome.ok (out ++ bs) := by
  intro bs
  induction bs with
  | nil => intro out h; simp [encodeSeqElems]
  | cons b rest ih =>
    intro out h
    have hb : b < 256 := h b (by simp)
    have hrest : ∀ x ∈ rest, x < 256 := fun x hx => h x (by simp [hx])
    have hone : toLEBytes 1 b = [b] := by
      simp [toLEBytes, List.range_succ, Nat.mod_eq_of_lt hb]
    simp [encodeSeqElems, encodeTypeDef, encodePrimitive, hb, hone,
      ih (out ++ [b]) hrest]

/-- C3: for a sequence or array type whose element type is the `U8`
primitive, encoding a `Bytes` value produces the same output as encoding
the identical `Seq` of per-byte `UInt` values. -/
theorem C3_bytes_seq_u8_equivalence (fuel : Nat) (reg : Registry)
    (tid len : Nat) (bs : List Nat) (out : List Nat) (ty : SType)
    (hres : reg.resolve tid = some ty)
    (hdef : ty.typeDef = TypeDef.primitive TypeDefPrimitive.u8)
    (hb : ∀ b ∈ bs, b < 256) :
    (encodeTypeDef fuel reg (TypeDef.sequence tid) (Value.bytes bs) out
      = encodeTypeDef fuel reg (TypeDef.sequence tid)
          (Value.seq (bs.map Value.uInt)) out)
    ∧ (encodeTypeDef fuel reg (TypeDef.array len tid) (Value.bytes bs) out
      = encodeTypeDef fuel reg (TypeDef.array len tid)
          (Value.seq (bs.map Value.uInt)) out) := by
  constructor <;>
    simp [encodeTypeDef, encodeSeq, hres, hdef, encodeSeqElems_u8 fuel reg bs _ hb]

/-- C3 witness: the bytes `[7, 8, 9]` and the `Seq` of `UInt` literals
`[7, 8, 9]` at the `u8` element type of `regU8`. -/
theorem C3_witness :
    encodeTypeDef 1 regU8 (TypeDef.sequence 1) (Value.bytes [7, 8, 9]) []
      = encodeTypeDef 1 regU8 (TypeDef.sequence 1)
          (Value.seq ([7, 8, 9].map Value.uInt)) [] :=
  (C3_bytes_seq_u8_equivalence 1 regU8 1 0 [7, 8, 9] []
    ⟨[], TypeDef.primitive TypeDefPrimitive.u8⟩ rfl rfl (by decide)).1

/-- C7 counterexample: a bare value against a one-field composite does NOT
always succeed — the composite has exactly one field here, yet encoding a
`Bool` against a composite wrapping `u8` fails, because the outcome is
that of encoding the bare value against the field's child type. -/
theorem C7_counterexample :
    encodeComposite 1 regU8 [⟨none, 1⟩] (Value.bool true) []
      = Outcome.err "Error encoding value for []: Expected a u8 value" := by
  simp [encodeComposite, CompositeTypeFields.fromTypeDef, encodeValue,
    encodeTypeDef, encodePrimitive, Registry.resolve, regU8]
  rfl

/-- C7 (amended): encoding a bare value (neither `Map` nor `Tuple`)
against a composite succeeds only if the composite has exactly one field;
with exactly one field the bare value is treated as that field's value and
the outcome equals encoding it directly against the field's child type
(identical bytes when that succeeds, its failure otherwise); any other
field count fails with a descriptive error. -/
theorem C7_single_field_delegation (fuel : Nat) (reg : Registry)
    (fields : List SField) (v : Value) (out : List Nat)
    (hbare : v.isBare = true) :
    (∀ f, fields = [f] →
        encodeComposite fuel reg fields v out = encodeValue fuel reg f.ty v out)
    ∧ (fields.length ≠ 1 →
        Outcome.isErr (encodeComposite fuel reg fields v out) = true) := by
  constructor
  · rintro f rfl
    have hok : ∃ st, CompositeTypeFields.fromTypeDef [f] = .ok st := by
      cases hn : f.name <;> simp [CompositeTypeFields.fromTypeDef, hn]
    obtain ⟨st, hst⟩ := hok
    cases v <;> simp_all [encodeComposite, Value.isBare]
  · intro hlen
    rcases hst : CompositeTypeFields.fromTypeDef fields with m | st <;>
      rcases fields with _ | ⟨f, _ | ⟨g, t⟩⟩ <;>
      cases v <;>
      simp_all [encodeComposite, Outcome.isErr, Value.isBare]

/-- C7 witness: the spec's example — a bare `Bool` against a one-field
composite wrapping `Bool` yields exactly the bytes of encoding the `Bool`
directly. -/
theorem C7_witness :
    encodeComposite 2 regBool [⟨none, 1⟩] (Value.bool true) []
      = encodeValue 2 regBool 1 (Value.bool true) []
    ∧ encodeValue 2 regBool 1 (Value.bool true) [] = Outcome.ok [1] :=
  ⟨(C7_single_field_delegation 2 regBool [⟨none, 1⟩] (Value.bool true) [] rfl).1
      ⟨none, 1⟩ rfl,
   by simp [encodeValue, encodeTypeDef, encodePrimitive, Registry.resolve, regBool]⟩

/-- C9: the top-level encode fails with an error embedding the requested
type id whenever the registry cannot resolve it, and a failure while
encoding a resolved type is wrapped with the type's declared path, keeping
the inner cause verbatim. -/
theorem C9_resolution_error_and_wrapping (fuel : Nat) (reg : Registry)
    (id : Nat) (v : Value) (out : List Nat) :
    (reg.resolve id = none →
      encodeValue (fuel + 1) reg id v out
        = Outcome.err ("Failed to resolve type with id '" ++ toString id ++ "'"))
    ∧ ∀ ty m, reg.resolve id = some ty →
        encodeTypeDef fuel reg ty.typeDef v out = Outcome.err m →
        encodeValue (fuel + 1) reg id v out
          = Outcome.err ("Error encoding value for " ++ toString ty.path ++ ": " ++ m) := by
  constructor
  · intro h
    simp [encodeValue, h]
  · intro ty m h1 h2
    simp [encodeValue, h1, h2]

/-- C9 witness: id 7 is unresolvable in the empty registry and the error
embeds `7`; the `char` primitive under path `Foo` fails and the failure is
wrapped with the path, preserving the inner message. -/
theorem C9_witness :
    encodeValue 1 (⟨[]⟩ : Registry) 7 (Value.bool true) []
      = Outcome.err "Failed to resolve type with id '7'"
    ∧ encodeValue 1 regChar 1 (Value.bool true) []
      = Outcome.err "Error encoding value for [Foo]: scale codec not implemented for char" := by
  constructor
  · have h := (C9_resolution_error_and_wrapping 0 ⟨[]⟩ 7 (Value.bool true) []).1 rfl
    rw [h]
    rfl
  · have h := (C9_resolution_error_and_wrapping 0 regChar 1 (Value.bool true) []).2
      ⟨["Foo"], TypeDef.primitive TypeDefPrimitive.char⟩
      "scale codec not implemented for char" rfl
      (by simp [encodeTypeDef, encodePrimitive])
    rw [h]
    rfl


/-- `findPosition` returns the first match: the element satisfies the
predicate, sits at the returned position, and every earlier element fails
the predicate. -/
theorem findPosition_spec {α : Type} (p : α → Bool) :
    ∀ (l : List α) (i : Nat) (x : α), findPosition p l = some (i, x) →
      p x = true ∧ l.get? i = some x
        ∧ ∀ j y, j < i → l.get? j = some y → p y = false := by
  intro l
  induction l with
  | nil => intro i x h; simp [findPosition] at h
  | cons a t ih =>
    intro i x h
    rw [findPosition] at h
    by_cases hp : p a
    · rw [if_pos hp, Option.some_inj] at h
      have h1 : i = 0 := (Prod.mk.injEq _ _ _ _ ▸ h).1.symm
      have h2 : x = a := (Prod.mk.injEq _ _ _ _ ▸ h).2.symm
      subst h1; subst h2
      exact ⟨hp, by simp, fun j y hj _ => absurd hj (by omega)⟩
    · rw [if_neg hp] at h
      cases hfp : findPosition p t with
      | none => rw [hfp] at h; simp at h
      | some ic =>
        rw [hfp] at h
        simp only [Option.map_some', Option.some_inj] at h
        have h1 : i = ic.1 + 1 := (Prod.mk.injEq _ _ _ _ ▸ h).1.symm
        have h2 : x = ic.2 := (Prod.mk.injEq _ _ _ _ ▸ h).2.symm
        subst h1; subst h2
        obtain ⟨g1, g2, g3⟩ := ih ic.1 ic.2 (by rw [hfp])
        refine ⟨g1, by simpa using g2, ?_⟩
        intro j y hj hget
        cases j with
        | zero =>
          simp at hget
          rw [← hget]
          simpa using hp
        | succ j' =>
          exact g3 j' y (by omega) (by simpa using hget)

/-- C1 counterexample: for cases `[A, B, C]`, a `Map` value naming case
`B` (with an empty payload matching B's zero fields) does not emit index
byte 1 followed by B's (empty) field encoding — the encoder panics in the
`todo!()` of the `Map`-payload branch instead. -/
theorem C1_counterexample :
    encodeVariantDef 1 ⟨[]⟩ casesABC (Value.map (some "B") []) []
      = Outcome.panicked "not yet implemented"
    ∧ encodeVariantDef 1 ⟨[]⟩ casesABC (Value.map (some "B") []) []
      ≠ Outcome.ok [1] := by
  have h : encodeVariantDef 1 ⟨[]⟩ casesABC (Value.map (some "B") []) []
      = Outcome.panicked "not yet implemented" := by
    simp [encodeVariantDef, casesABC, findPosition, encodeVariantCase]
  exact ⟨h, by rw [h]; simp⟩

/-- C1 (amended): encoding a `Map` or `Tuple` value carrying identifier N
against a variant type selects the first case, in declaration order, whose
name equals N (a hard error if none matches), requires the zero-based
declaration index to fit one byte (a hard error past 255) and emits it;
for a `Tuple` value the case's fields are then encoded positionally
against the payload, while for a `Map` value the payload encoding is
unimplemented and panics (`todo!`) after the index byte; for cases
`[A, B, C]` a `Tuple` naming "B" emits index byte 1 followed by B's field
encoding. -/
theorem C1_variant_index_and_fields (fuel : Nat) (reg : Registry)
    (variants : List Variant) (n : String) (vs : List Value)
    (entries : List (String × Value)) (out : List Nat) :
    (encodeVariantDef fuel reg variants (Value.tuple (some n) vs) out
      = match findPosition (fun c => c.name == n) variants with
        | none => Outcome.err ("No variant '" ++ n ++ "' found")
        | some (index, c) =>
          if index ≤ 255 then encodeFields fuel reg c.fields vs (out ++ [index])
          else Outcome.err "Variant index > 255")
    ∧ (encodeVariantDef fuel reg variants (Value.map (some n) entries) out
      = match findPosition (fun c => c.name == n) variants with
        | none => Outcome.err ("No variant '" ++ n ++ "' found")
        | some (index, _c) =>
          if index ≤ 255 then Outcome.panicked "not yet implemented"
          else Outcome.err "Variant index > 255")
    ∧ (∀ index c, findPosition (fun c => c.name == n) variants = some (index, c) →
        c.name = n ∧ variants.get? index = some c
          ∧ ∀ j cj, j < index → variants.get? j = some cj → cj.name ≠ n)
    ∧ encodeVariantDef fuel reg casesABC (Value.tuple (some "B") []) out
      = Outcome.ok (out ++ [1]) := by
  refine ⟨?_, ?_, ?_, ?_⟩
  · cases hfp : findPosition (fun c => c.name == n) variants with
    | none => simp [encodeVariantDef, hfp]
    | some ic =>
      obtain ⟨index, c⟩ := ic
      by_cases hi : index ≤ 255 <;>
        simp [encodeVariantDef, hfp, hi, encodeVariantCase]
  · cases hfp : findPosition (fun c => c.name == n) variants with
    | none => simp [encodeVariantDef, hfp]
    | some ic =>
      obtain ⟨index, c⟩ := ic
      by_cases hi : index ≤ 255 <;>
        simp [encodeVariantDef, hfp, hi, encodeVariantCase]
  · intro index c hfp
    obtain ⟨h1, h2, h3⟩ := findPosition_spec (fun c => c.name == n) variants index c hfp
    refine ⟨by simpa using h1, h2, ?_⟩
    intro j cj hj hget
    simpa using h3 j cj hj hget
  · simp [encodeVariantDef, casesABC, findPosition, encodeVariantCase,
      encodeFields]

/-- C1 witness: the amended theorem instantiated at cases `[A, B, C]` and
a `Tuple` value naming "B": index byte 1 is emitted, followed by B's
(empty) field encoding. -/
theorem C1_witness :
    encodeVariantDef 1 ⟨[]⟩ casesABC (Value.tuple (some "B") []) []
      = Outcome.ok ([] ++ [1]) :=
  (C1_variant_index_and_fields 1 ⟨[]⟩ casesABC "B" [] [] []).2.2.2

/-- C10: for an array or sequence element type id that resolves, encoding
a `Bytes` value appends exactly the raw bytes (preceded by the compact
byte count only when a length is encoded), whatever descriptor the element
type resolves to — the right-hand side does not inspect it; an
unresolvable element id is an error even on this fast path, because
resolution precedes the value inspection. -/
theorem C10_bytes_fast_path (fuel : Nat) (reg : Registry) (tid : Nat)
    (bs : List Nat) (encodeLen : Bool) (out : List Nat) :
    (reg.resolve tid = none →
      encodeSeq fuel reg tid (Value.bytes bs) encodeLen out
        = Outcome.err ("Failed to find type with id '" ++ toString tid ++ "'"))
    ∧ ∀ ty, reg.resolve tid = some ty → bs.length < 2 ^ 32 →
        encodeSeq fuel reg tid (Value.bytes bs) encodeLen out
          = Outcome.ok ((if encodeLen then out ++ compactU32 bs.length else out) ++ bs) := by
  constructor
  · intro h
    simp [encodeSeq, h]
  · intro ty h hlen
    have hm : bs.length % 4294967296 = bs.length := Nat.mod_eq_of_lt (by omega)
    simp [encodeSeq, h, hm]

/-- C10 witness: an unresolvable id errors despite the `Bytes` value, and
with a `bool` element type the raw bytes are appended unchanged after the
compact count — no per-element dispatch on the element kind. -/
theorem C10_witness :
    encodeSeq 1 (⟨[]⟩ : Registry) 9 (Value.bytes [5, 6]) true []
      = Outcome.err ("Failed to find type with id '" ++ toString 9 ++ "'")
    ∧ encodeSeq 1 regBool 1 (Value.bytes [5, 6]) true []
      = Outcome.ok ((if true then [] ++ compactU32 [5, 6].length else []) ++ [5, 6]) :=
  ⟨(C10_bytes_fast_path 1 ⟨[]⟩ 9 [5, 6] true []).1 rfl,
   (C10_bytes_fast_path 1 regBool 1 [5, 6] true []).2
     ⟨[], TypeDef.primitive TypeDefPrimitive.bool⟩ rfl (by decide)⟩
